import Mathlib

/-!
Verification of the user CRUD core (repository + service) of the
study-fullstack repository.

The backing store is a JavaScript `Map<string, User>`; we model it as an
association list in insertion order, because `Map` iteration order is
insertion order and the pagination endpoint slices over `store.values()`.
`Map.set` on an existing key replaces the value in place (keeping the key's
position); on a fresh key it appends at the end. `Map.delete` removes the
entry for the key.

Timestamps (`new Date().toISOString()`) are modelled as natural numbers
passed explicitly to every operation that reads the clock; ISO-8601 strings
of the same format compare lexicographically in time order, so `Nat` with
`≤` is a faithful abstraction. Login counters are JavaScript numbers used
as integers, modelled as `Int` (they can in principle go negative through
the repository's update payload). Throwing is modelled with `Except`; a
function that throws returns the store as it was at the throw site.
-/

namespace UserApp

/-- `User.status` enum: `'active' | 'inactive'`. -/
inductive Status where
  | active
  | inactive
deriving DecidableEq, Repr

/-- The `User` record of `user.model.ts` / the spec's data model. -/
structure User where
  username : String
  firstName : String
  lastName : String
  status : Status
  loginsCounter : Int
  creationTime : Nat
  lastUpdateTime : Nat
deriving DecidableEq, Repr

/-- The in-memory `Map<string, User>`, as an association list in insertion
order. -/
structure Store where
  entries : List (String × User)
deriving DecidableEq, Repr

/-- Lookup in an association list: the value at the first matching key. -/
def lookupKey (key : String) : List (String × User) → Option User
  | [] => none
  | (k, u) :: rest => if k = key then some u else lookupKey key rest

/-- Insert-or-replace in an association list, keeping the key's position
when it exists and appending at the end otherwise. -/
def setKey (key : String) (u : User) : List (String × User) → List (String × User)
  | [] => [(key, u)]
  | (k, v) :: rest => if k = key then (k, u) :: rest else (k, v) :: setKey key u rest

/-- Remove the first entry with the given key; the flag says whether one
was found. -/
def deleteKey (key : String) : List (String × User) → Bool × List (String × User)
  | [] => (false, [])
  | (k, v) :: rest =>
    if k = key then (true, rest)
    else
      let r := deleteKey key rest
      (r.1, (k, v) :: r.2)

namespace Store

/-- `store.get(key)`: the value at `key`, if present. -/
def get (s : Store) (key : String) : Option User :=
  lookupKey key s.entries

/-- `store.set(key, u)`: replace in place when the key exists, append
otherwise (JavaScript `Map` insertion-order semantics). -/
def set (s : Store) (key : String) (u : User) : Store :=
  ⟨setKey key u s.entries⟩

/-- `store.delete(key)`: whether an entry was removed, and the store after. -/
def delete (s : Store) (key : String) : Bool × Store :=
  let r := deleteKey key s.entries
  (r.1, ⟨r.2⟩)

/-- `store.values()` in iteration (= insertion) order. -/
def values (s : Store) : List User := s.entries.map Prod.snd

/-- A `Map` never holds two entries with the same key; every store the
program can build satisfies this. -/
def wf (s : Store) : Prop := (s.entries.map Prod.fst).Nodup

instance (s : Store) : Decidable s.wf := by
  unfold wf; infer_instance

end Store

/-- The domain errors of `user.error.ts` (`PageCurrentError` and
`PageSizeError` extend `RangeError`). -/
inductive UserError where
  | usernameExists (username : String)
  | userInactive (username : String)
  | pageCurrent (pageCurrent : Int)
  | pageSize (pageSize : Int)
deriving DecidableEq, Repr

/-- The `PaginateList<User>` envelope of `shared/pagination.ts`. -/
structure PaginateList where
  list : List User
  pageCurrent : Int
  pageSize : Int
  pageCount : Nat
deriving DecidableEq, Repr

/-- `CreatePayload = Pick<User, 'username' | 'firstName' | 'lastName'>`. -/
structure CreatePayload where
  username : String
  firstName : String
  lastName : String
deriving DecidableEq, Repr

/-- `UpdatePayload = Partial<Pick<User, 'firstName' | 'lastName' | 'status'
| 'loginsCounter'>>`; `none` is an absent / `undefined` field. -/
structure UpdatePayload where
  firstName : Option String := none
  lastName : Option String := none
  status : Option Status := none
  loginsCounter : Option Int := none
deriving DecidableEq, Repr

namespace UserRepository

/-- `user.repository.ts` `getAll`: throws on `pageCurrent < 1` or
`pageSize < 1`, otherwise `pageCount = Math.ceil(n / pageSize)` and
`list = usersAsArray.slice(offset, offset + pageSize)` with
`offset = (pageCurrent - 1) * pageSize`. -/
def getAll (s : Store) (pageCurrent pageSize : Int) : Except UserError PaginateList :=
  if pageCurrent < 1 then .error (.pageCurrent pageCurrent)
  else if pageSize < 1 then .error (.pageSize pageSize)
  else
    let usersAsArray := s.values
    let pageCount := (usersAsArray.length + pageSize.toNat - 1) / pageSize.toNat
    let offset := ((pageCurrent - 1) * pageSize).toNat
    let list := (usersAsArray.drop offset).take pageSize.toNat
    .ok ⟨list, pageCurrent, pageSize, pageCount⟩

/-- `user.repository.ts` `getByUsername`: plain lookup, `undefined` when
absent (`structuredClone` is the identity on values). -/
def getByUsername (s : Store) (username : String) : Option User :=
  Store.get s username

/-- `user.repository.ts` `create`: throws when the key exists, otherwise
inserts with derived defaults and both timestamps set to `now`. -/
def create (s : Store) (data : CreatePayload) (now : Nat) :
    Except UserError User × Store :=
  match Store.get s data.username with
  | some _ => (.error (.usernameExists data.username), s)
  | none =>
    let user : User :=
      { username := data.username
        firstName := data.firstName
        lastName := data.lastName
        status := .active
        loginsCounter := 0
        creationTime := now
        lastUpdateTime := now }
    (.ok user, Store.set s data.username user)

/-- `user.repository.ts` `update`: returns `undefined` when the key is
absent; otherwise mutates the stored record field by field for every
defined payload field, then refreshes `lastUpdateTime`. -/
def update (s : Store) (username : String) (data : UpdatePayload) (now : Nat) :
    Option User × Store :=
  match Store.get s username with
  | none => (none, s)
  | some user0 =>
    let user1 := match data.firstName with
      | some v => { user0 with firstName := v }
      | none => user0
    let user2 := match data.lastName with
      | some v => { user1 with lastName := v }
      | none => user1
    let user3 := match data.status with
      | some v => { user2 with status := v }
      | none => user2
    let user4 := match data.loginsCounter with
      | some v => { user3 with loginsCounter := v }
      | none => user3
    let user5 := { user4 with lastUpdateTime := now }
    (some user5, Store.set s username user5)

/-- `user.repository.ts` `remove`: `store.delete(username)`. -/
def remove (s : Store) (username : String) : Bool × Store :=
  Store.delete s username

/-- `user.repository.ts` `clearAll`. -/
def clearAll (_s : Store) : Store := ⟨[]⟩

end UserRepository

/-- `UpdateDetailsPayload = Partial<Pick<User, 'firstName' | 'lastName'>>`. -/
structure UpdateDetailsPayload where
  firstName : Option String := none
  lastName : Option String := none
deriving DecidableEq, Repr

namespace UserService

/-- Service `getAll`: pass-through. -/
def getAll (s : Store) (pageCurrent pageSize : Int) : Except UserError PaginateList :=
  UserRepository.getAll s pageCurrent pageSize

/-- Service `getByUsername`: pass-through, no status gating. -/
def getByUsername (s : Store) (username : String) : Option User :=
  UserRepository.getByUsername s username

/-- Service `create`: pass-through. -/
def create (s : Store) (data : CreatePayload) (now : Nat) :
    Except UserError User × Store :=
  UserRepository.create s data now

/-- Service `updateUserDetails`: `undefined` when the user is absent,
throws `UserInactiveError` when its status is `'inactive'`, otherwise
delegates to the repository update with only the detail fields. -/
def updateUserDetails (s : Store) (username : String) (data : UpdateDetailsPayload)
    (now : Nat) : Except UserError (Option User) × Store :=
  match UserRepository.getByUsername s username with
  | none => (.ok none, s)
  | some targetUser =>
    if targetUser.status = .inactive then (.error (.userInactive username), s)
    else
      let r := UserRepository.update s username
        { firstName := data.firstName, lastName := data.lastName } now
      (.ok r.1, r.2)

/-- Service `updateUserStatus`: unconditional delegation; the payload is
`Pick<User, 'status'>`, so only `status` is defined. -/
def updateUserStatus (s : Store) (username : String) (status : Status) (now : Nat) :
    Option User × Store :=
  UserRepository.update s username { status := some status } now

/-- Service `increaseLoginsCounter`: `undefined` when absent, throws
`UserInactiveError` when inactive, otherwise increments the counter of the
copy it read and writes the whole record back through the repository update
(every payload field is defined). -/
def increaseLoginsCounter (s : Store) (username : String) (now : Nat) :
    Except UserError (Option User) × Store :=
  match UserRepository.getByUsername s username with
  | none => (.ok none, s)
  | some targetUser =>
    if targetUser.status = .inactive then (.error (.userInactive username), s)
    else
      let r := UserRepository.update s username
        { firstName := some targetUser.firstName
          lastName := some targetUser.lastName
          status := some targetUser.status
          loginsCounter := some (targetUser.loginsCounter + 1) } now
      (.ok r.1, r.2)

/-- Service `remove`: pass-through, no status gating. -/
def remove (s : Store) (username : String) : Bool × Store :=
  UserRepository.remove s username

end UserService

/-- The record `update` produces from a stored record and a partial
payload: defined fields overwrite, absent fields are kept, `username` and
`creationTime` are untouched, `lastUpdateTime` becomes `now`. -/
def applyUpdate (user : User) (data : UpdatePayload) (now : Nat) : User :=
  { user with
    firstName := data.firstName.getD user.firstName
    lastName := data.lastName.getD user.lastName
    status := data.status.getD user.status
    loginsCounter := data.loginsCounter.getD user.loginsCounter
    lastUpdateTime := now }

/-- The `list` field `getAll` answers for a page (empty on the error
branch, which valid pages never take). -/
def pageList (s : Store) (pageCurrent pageSize : Int) : List User :=
  match UserRepository.getAll s pageCurrent pageSize with
  | .ok r => r.list
  | .error _ => []

/-- The store after creating a user and incrementing its login counter
twice through the service (the spec's `alice` scenario). -/
def createThenTwoIncrements (p : CreatePayload) (t0 t1 t2 : Nat) : Store :=
  (UserService.increaseLoginsCounter
    ((UserService.increaseLoginsCounter
      ((UserService.create ⟨[]⟩ p t0).2) p.username t1).2) p.username t2).2

/-- The per-record part of the store invariant: the record's username is
its map key, `creationTime ≤ lastUpdateTime`, and the login counter is a
non-negative integer. -/
def UserInv (key : String) (u : User) : Prop :=
  u.username = key ∧ u.creationTime ≤ u.lastUpdateTime ∧ 0 ≤ u.loginsCounter

/-- The store-wide invariant: unique keys and every record well-formed. -/
def StoreInv (s : Store) : Prop :=
  s.wf ∧ ∀ p ∈ s.entries, UserInv p.1 p.2

instance (key : String) (u : User) : Decidable (UserInv key u) := by
  unfold UserInv; infer_instance

instance (s : Store) : Decidable (StoreInv s) := by
  unfold StoreInv; infer_instance

/-- Sample payload for concrete witnesses. -/
def alicePayload : CreatePayload := ⟨"alice", "Alice", "Liddell"⟩

/-- A concretely inactive stored user, for witnesses. -/
def bobInactive : User := ⟨"bob", "Bob", "Stone", .inactive, 2, 5, 7⟩

/-- A store holding one active and one inactive user, for witnesses. -/
def demoStore : Store :=
  ⟨[("ann", ⟨"ann", "Ann", "Lee", .active, 1, 3, 4⟩), ("bob", bobInactive)]⟩

/-- A store holding five users, for pagination witnesses. -/
def demoStore5 : Store :=
  ⟨[("u1", ⟨"u1", "A", "A", .active, 0, 0, 0⟩),
    ("u2", ⟨"u2", "B", "B", .active, 0, 0, 0⟩),
    ("u3", ⟨"u3", "C", "C", .active, 0, 0, 0⟩),
    ("u4", ⟨"u4", "D", "D", .active, 0, 0, 0⟩),
    ("u5", ⟨"u5", "E", "E", .active, 0, 0, 0⟩)]⟩

/-- Store reached from empty by `create "a"` at time 0 followed by a
repository `update` whose payload carries `loginsCounter = -1`, at time 1. -/
def negativeCounterStore : Store :=
  (UserRepository.update
    (UserRepository.create ⟨[]⟩ ⟨"a", "Ada", "Lovelace"⟩ 0).2
    "a" { loginsCounter := some (-1) } 1).2

/-! ### Association-list and store lemmas -/

theorem lookupKey_setKey_self (key : String) (u : User) (l : List (String × User)) :
    lookupKey key (setKey key u l) = some u := by
  induction l with
  | nil => simp [lookupKey, setKey]
  | cons p rest ih =>
    obtain ⟨k, v⟩ := p
    by_cases h : k = key <;> simp [lookupKey, setKey, h, ih]

theorem lookupKey_setKey_ne (key key' : String) (u : User) (l : List (String × User))
    (h : key ≠ key') : lookupKey key' (setKey key u l) = lookupKey key' l := by
  induction l with
  | nil => simp [lookupKey, setKey, h]
  | cons p rest ih =>
    obtain ⟨k, v⟩ := p
    by_cases hk : k = key
    · subst hk; simp [lookupKey, setKey, h]
    · by_cases hk' : k = key'
      · subst hk'; simp [lookupKey, setKey, Ne.symm h]
      · simp [lookupKey, setKey, hk, hk', ih]

theorem Store.get_set_self (s : Store) (key : String) (u : User) :
    (s.set key u).get key = some u :=
  lookupKey_setKey_self key u s.entries

theorem Store.get_set_ne (s : Store) (key key' : String) (u : User) (h : key ≠ key') :
    (s.set key u).get key' = s.get key' :=
  lookupKey_setKey_ne key key' u s.entries h

theorem lookupKey_eq_none_of_not_mem (key : String) (l : List (String × User))
    (h : key ∉ l.map Prod.fst) : lookupKey key l = none := by
  induction l with
  | nil => simp [lookupKey]
  | cons p rest ih =>
    obtain ⟨k, v⟩ := p
    simp only [List.map_cons, List.mem_cons] at h
    push_neg at h
    simp [lookupKey, Ne.symm h.1, ih h.2]

theorem deleteKey_fst (key : String) (l : List (String × User)) :
    (deleteKey key l).1 = (lookupKey key l).isSome := by
  induction l with
  | nil => simp [deleteKey, lookupKey]
  | cons p rest ih =>
    obtain ⟨k, v⟩ := p
    by_cases h : k = key <;> simp [deleteKey, lookupKey, h, ih]

theorem deleteKey_of_lookup_none (key : String) (l : List (String × User))
    (h : lookupKey key l = none) : deleteKey key l = (false, l) := by
  induction l with
  | nil => simp [deleteKey]
  | cons p rest ih =>
    obtain ⟨k, v⟩ := p
    by_cases hk : k = key
    · simp [lookupKey, hk] at h
    · simp only [lookupKey, if_neg hk] at h
      simp [deleteKey, hk, ih h]

theorem lookupKey_isSome_of_mem_keys (key : String) (l : List (String × User))
    (h : key ∈ l.map Prod.fst) : (lookupKey key l).isSome := by
  induction l with
  | nil => simp at h
  | cons p rest ih =>
    obtain ⟨k, v⟩ := p
    by_cases hk : k = key
    · simp [lookupKey, hk]
    · simp only [List.map_cons, List.mem_cons] at h
      rcases h with h | h
      · exact absurd h.symm hk
      · simp only [lookupKey, if_neg hk]
        exact ih h

theorem deleteKey_snd_sublist (key : String) (l : List (String × User)) :
    (deleteKey key l).2.Sublist l := by
  induction l with
  | nil => simp [deleteKey]
  | cons p rest ih =>
    obtain ⟨k, v⟩ := p
    by_cases h : k = key
    · simp only [deleteKey, if_pos h]
      exact List.sublist_cons_self (k, v) rest
    · simpa [deleteKey, h] using ih.cons₂ (k, v)

theorem lookupKey_deleteKey_self (key : String) (l : List (String × User))
    (h : (l.map Prod.fst).Nodup) : lookupKey key (deleteKey key l).2 = none := by
  induction l with
  | nil => simp [deleteKey, lookupKey]
  | cons p rest ih =>
    obtain ⟨k, v⟩ := p
    simp only [List.map_cons, List.nodup_cons] at h
    by_cases hk : k = key
    · subst hk
      simpa [deleteKey] using lookupKey_eq_none_of_not_mem k rest h.1
    · simp [deleteKey, lookupKey, hk, ih h.2]

theorem setKey_map_fst_of_lookup_some (key : String) (u v : User)
    (l : List (String × User)) (h : lookupKey key l = some v) :
    (setKey key u l).map Prod.fst = l.map Prod.fst := by
  induction l with
  | nil => simp [lookupKey] at h
  | cons p rest ih =>
    obtain ⟨k, w⟩ := p
    by_cases hk : k = key
    · simp [setKey, hk]
    · simp only [lookupKey, if_neg hk] at h
      simp [setKey, hk, ih h]

theorem setKey_map_fst_of_lookup_none (key : String) (u : User)
    (l : List (String × User)) (h : lookupKey key l = none) :
    (setKey key u l).map Prod.fst = l.map Prod.fst ++ [key] := by
  induction l with
  | nil => simp [setKey]
  | cons p rest ih =>
    obtain ⟨k, w⟩ := p
    by_cases hk : k = key
    · simp [lookupKey, hk] at h
    · simp only [lookupKey, if_neg hk] at h
      simp [setKey, hk, ih h]

theorem Store.wf_set (s : Store) (key : String) (u : User) (hs : s.wf) :
    (s.set key u).wf := by
  unfold Store.wf Store.set at *
  cases h : lookupKey key s.entries with
  | some v => rw [setKey_map_fst_of_lookup_some key u v s.entries h]; exact hs
  | none =>
    rw [setKey_map_fst_of_lookup_none key u s.entries h]
    have hkey : key ∉ s.entries.map Prod.fst := by
      intro hmem
      have hsome := lookupKey_isSome_of_mem_keys key s.entries hmem
      rw [h] at hsome
      simp at hsome
    rw [List.nodup_append]
    exact ⟨hs, List.nodup_singleton key, by simpa [List.disjoint_singleton] using hkey⟩

theorem Store.wf_delete (s : Store) (key : String) (hs : s.wf) :
    (s.delete key).2.wf :=
  ((deleteKey_snd_sublist key s.entries).map Prod.fst).nodup hs

theorem setKey_mem (key : String) (u : User) (l : List (String × User))
    (p : String × User) (hp : p ∈ setKey key u l) :
    p = (key, u) ∨ p ∈ l := by
  induction l with
  | nil => simpa [setKey] using hp
  | cons q rest ih =>
    obtain ⟨k, w⟩ := q
    by_cases hk : k = key
    · subst hk
      rcases List.mem_cons.1 (by simpa [setKey] using hp) with h | h
      · left; simpa using h
      · right; exact List.mem_cons_of_mem _ h
    · rcases List.mem_cons.1 (by simpa [setKey, hk] using hp) with h | h
      · right; simp [h]
      · rcases ih h with h' | h'
        · left; exact h'
        · right; exact List.mem_cons_of_mem _ h'

theorem lookupKey_mem (key : String) (l : List (String × User)) (u : User)
    (h : lookupKey key l = some u) : (key, u) ∈ l := by
  induction l with
  | nil => simp [lookupKey] at h
  | cons p rest ih =>
    obtain ⟨k, v⟩ := p
    by_cases hk : k = key
    · subst hk
      have h' : v = u := by simpa [lookupKey] using h
      subst h'
      exact List.mem_cons_self _ _
    · simp only [lookupKey, if_neg hk] at h
      exact List.mem_cons_of_mem _ (ih h)

/-! ### Characterizations of the repository operations -/

theorem update_eq_of_get_some (s : Store) (username : String) (data : UpdatePayload)
    (now : Nat) (user : User) (h : Store.get s username = some user) :
    UserRepository.update s username data now =
      (some (applyUpdate user data now), Store.set s username (applyUpdate user data now)) := by
  unfold UserRepository.update applyUpdate
  rw [h]
  cases data with
  | mk f l st c => cases f <;> cases l <;> cases st <;> cases c <;> rfl

theorem update_eq_of_get_none (s : Store) (username : String) (data : UpdatePayload)
    (now : Nat) (h : Store.get s username = none) :
    UserRepository.update s username data now = (none, s) := by
  unfold UserRepository.update
  rw [h]

theorem getAll_ok (s : Store) (pc ps : Int) (hpc : 1 ≤ pc) (hps : 1 ≤ ps) :
    UserRepository.getAll s pc ps =
      .ok ⟨(s.values.drop (((pc - 1) * ps).toNat)).take ps.toNat, pc, ps,
        (s.values.length + ps.toNat - 1) / ps.toNat⟩ := by
  unfold UserRepository.getAll
  rw [if_neg (by omega), if_neg (by omega)]

theorem service_incr_eq (s : Store) (username : String) (user : User) (now : Nat)
    (hget : Store.get s username = some user) (hact : user.status = .active) :
    UserService.increaseLoginsCounter s username now =
      (.ok (some (applyUpdate user
        { firstName := some user.firstName, lastName := some user.lastName,
          status := some user.status, loginsCounter := some (user.loginsCounter + 1) } now)),
       Store.set s username (applyUpdate user
        { firstName := some user.firstName, lastName := some user.lastName,
          status := some user.status, loginsCounter := some (user.loginsCounter + 1) } now)) := by
  unfold UserService.increaseLoginsCounter UserRepository.getByUsername
  rw [hget]
  simp only [hact]
  rw [if_neg (by simp)]
  rw [update_eq_of_get_some s username _ now user hget]

/-! ### Pagination arithmetic -/

theorem ceilDiv_succ (m S : Nat) (hS : 0 < S) (hm : 0 < m) :
    m ⌈/⌉ S = (m - S) ⌈/⌉ S + 1 := by
  rcases le_or_lt m S with h | h
  · have h1 : m - S = 0 := by omega
    rw [h1, Nat.ceilDiv_eq_add_pred_div, Nat.ceilDiv_eq_add_pred_div]
    have e1 : m + S - 1 = (m - 1) + S := by omega
    rw [e1, Nat.add_div_right _ hS]
    have e2 : (m - 1) / S = 0 := Nat.div_eq_of_lt (by omega)
    have e3 : (0 + S - 1) / S = 0 := Nat.div_eq_of_lt (by omega)
    omega
  · rw [Nat.ceilDiv_eq_add_pred_div, Nat.ceilDiv_eq_add_pred_div]
    have e1 : m + S - 1 = ((m - S) + S - 1) + S := by omega
    rw [e1, Nat.add_div_right _ hS]

theorem flatten_chunks (S : Nat) (hS : 0 < S) :
    ∀ (n : Nat) (l : List User), l.length = n →
      ((List.range (l.length ⌈/⌉ S)).map (fun i => (l.drop (i * S)).take S)).flatten = l := by
  intro n
  induction n using Nat.strong_induction_on with
  | _ n ih =>
    intro l hl
    cases l with
    | nil => simp
    | cons a t =>
      have hm : 0 < (a :: t).length := by simp
      rw [ceilDiv_succ _ S hS hm, List.range_succ_eq_map, List.map_cons, List.flatten_cons,
        List.map_map]
      have htail : ∀ i : Nat,
          ((fun i => ((a :: t).drop (i * S)).take S) ∘ Nat.succ) i =
            (((a :: t).drop S).drop (i * S)).take S := by
        intro i
        simp only [Function.comp_apply]
        rw [List.drop_drop]
        congr 2
        rw [Nat.succ_mul]
        omega
      rw [List.map_congr_left (fun i _ => htail i)]
      have hlen : ((a :: t).drop S).length = (a :: t).length - S := by
        simp [List.length_drop]
      have hrec := ih ((a :: t).length - S) (by omega) ((a :: t).drop S) hlen
      rw [hlen] at hrec
      simp only [Nat.zero_mul, List.drop_zero]
      rw [hrec]
      exact List.take_append_drop S (a :: t)

/-! ### Store invariant machinery -/

theorem StoreInv_set (s : Store) (key : String) (u : User) (hs : StoreInv s)
    (hu : UserInv key u) : StoreInv (s.set key u) := by
  refine ⟨Store.wf_set s key u hs.1, ?_⟩
  intro p hp
  rcases setKey_mem key u s.entries p hp with h | h
  · subst h; exact hu
  · exact hs.2 p h

theorem StoreInv_delete (s : Store) (key : String) (hs : StoreInv s) :
    StoreInv (s.delete key).2 := by
  refine ⟨Store.wf_delete s key hs.1, ?_⟩
  intro p hp
  exact hs.2 p ((deleteKey_snd_sublist key s.entries).mem hp)

theorem StoreInv_update (s : Store) (hs : StoreInv s) (now : Nat)
    (hnow : ∀ p ∈ s.entries, p.2.creationTime ≤ now)
    (k : String) (data : UpdatePayload) (hc : ∀ c ∈ data.loginsCounter, 0 ≤ c) :
    StoreInv (UserRepository.update s k data now).2 := by
  cases hg : Store.get s k with
  | none => rw [update_eq_of_get_none s k data now hg]; exact hs
  | some u =>
    rw [update_eq_of_get_some s k data now u hg]
    have hmem : (k, u) ∈ s.entries := lookupKey_mem k s.entries u hg
    have huinv := hs.2 (k, u) hmem
    refine StoreInv_set s k _ hs ⟨huinv.1, ?_, ?_⟩
    · exact le_trans (hnow (k, u) hmem) (le_refl now)
    · cases hcd : data.loginsCounter with
      | none => simpa [applyUpdate, hcd] using huinv.2.2
      | some c => simpa [applyUpdate, hcd] using hc c (by simp [hcd])

/-! ### Claims -/

/-- C4: whenever a record with the given username is already stored,
`create` fails with the duplicate-key error (`UsernameExistsError`)
whatever the rest of the payload holds, and the whole store — the existing
record included — is returned unchanged. -/
theorem create_duplicate_rejected (s : Store) (data : CreatePayload) (now : Nat)
    (user : User) (h : Store.get s data.username = some user) :
    UserRepository.create s data now = (.error (.usernameExists data.username), s) := by
  unfold UserRepository.create
  rw [h]

/-- C4 witness: creating `ann` again on the demo store fails and leaves the
store as it was. -/
theorem create_duplicate_rejected_witness :
    UserRepository.create demoStore ⟨"ann", "Other", "Name"⟩ 9 =
      (.error (.usernameExists "ann"), demoStore) :=
  create_duplicate_rejected demoStore ⟨"ann", "Other", "Name"⟩ 9
    ⟨"ann", "Ann", "Lee", .active, 1, 3, 4⟩ (by decide)

/-- C5: on a fresh username, `create` succeeds with the derived defaults
(`status = active`, `loginsCounter = 0`, `creationTime = lastUpdateTime`),
and an immediately following `getByUsername` returns exactly the record
`create` returned. -/
theorem create_get_roundtrip (s : Store) (data : CreatePayload) (now : Nat)
    (h : Store.get s data.username = none) :
    ∃ u s2, UserRepository.create s data now = (.ok u, s2)
      ∧ u.status = .active
      ∧ u.loginsCounter = 0
      ∧ u.creationTime = now
      ∧ u.lastUpdateTime = now
      ∧ u.creationTime = u.lastUpdateTime
      ∧ u.username = data.username
      ∧ u.firstName = data.firstName
      ∧ u.lastName = data.lastName
      ∧ UserRepository.getByUsername s2 data.username = some u := by
  refine ⟨⟨data.username, data.firstName, data.lastName, .active, 0, now, now⟩,
    Store.set s data.username ⟨data.username, data.firstName, data.lastName, .active, 0, now, now⟩,
    ?_, rfl, rfl, rfl, rfl, rfl, rfl, rfl, rfl, ?_⟩
  · unfold UserRepository.create
    rw [h]
  · exact Store.get_set_self s data.username _

/-- C5 witness: creating `alice` on the demo store and reading it back. -/
theorem create_get_roundtrip_witness :
    ∃ u s2, UserRepository.create demoStore alicePayload 9 = (.ok u, s2)
      ∧ u.loginsCounter = 0
      ∧ UserRepository.getByUsername s2 "alice" = some u := by
  obtain ⟨u, s2, h1, _, h3, _, _, _, _, _, _, h10⟩ :=
    create_get_roundtrip demoStore alicePayload 9 (by decide)
  exact ⟨u, s2, h1, h3, h10⟩

/-- C6: the repository `update` applies exactly the defined fields of the
partial payload, keeps `username` and `creationTime` (and every field whose
payload entry is absent) unchanged, sets `lastUpdateTime` to the current
time — hence, for a monotone clock, to a value at least the previous one —
and with the empty (all-undefined) payload changes nothing but
`lastUpdateTime`. -/
theorem update_frame (s : Store) (username : String) (data : UpdatePayload)
    (now : Nat) (user : User) (h : Store.get s username = some user) :
    ∃ u2, UserRepository.update s username data now = (some u2, Store.set s username u2)
      ∧ u2.username = user.username
      ∧ u2.creationTime = user.creationTime
      ∧ (∀ v, data.firstName = some v → u2.firstName = v)
      ∧ (data.firstName = none → u2.firstName = user.firstName)
      ∧ (∀ v, data.lastName = some v → u2.lastName = v)
      ∧ (data.lastName = none → u2.lastName = user.lastName)
      ∧ (∀ v, data.status = some v → u2.status = v)
      ∧ (data.status = none → u2.status = user.status)
      ∧ (∀ v, data.loginsCounter = some v → u2.loginsCounter = v)
      ∧ (data.loginsCounter = none → u2.loginsCounter = user.loginsCounter)
      ∧ u2.lastUpdateTime = now
      ∧ (user.lastUpdateTime ≤ now → user.lastUpdateTime ≤ u2.lastUpdateTime)
      ∧ (data = {} → u2 = { user with lastUpdateTime := now }) := by
  refine ⟨applyUpdate user data now,
    update_eq_of_get_some s username data now user h,
    rfl, rfl, ?_, ?_, ?_, ?_, ?_, ?_, ?_, ?_, rfl, fun hle => hle, ?_⟩
  · intro v hv; simp [applyUpdate, hv]
  · intro hn; simp [applyUpdate, hn]
  · intro v hv; simp [applyUpdate, hv]
  · intro hn; simp [applyUpdate, hn]
  · intro v hv; simp [applyUpdate, hv]
  · intro hn; simp [applyUpdate, hn]
  · intro v hv; simp [applyUpdate, hv]
  · intro hn; simp [applyUpdate, hn]
  · intro hd; subst hd; rfl

/-- C6 witness: the empty update on `ann` in the demo store only refreshes
`lastUpdateTime`. -/
theorem update_frame_witness :
    ∃ u2, UserRepository.update demoStore "ann" {} 10 = (some u2, Store.set demoStore "ann" u2)
      ∧ u2 = ⟨"ann", "Ann", "Lee", .active, 1, 3, 10⟩ := by
  obtain ⟨u2, h1, _, _, _, _, _, _, _, _, _, _, _, _, h14⟩ :=
    update_frame demoStore "ann" {} 10 ⟨"ann", "Ann", "Lee", .active, 1, 3, 4⟩ (by decide)
  exact ⟨u2, h1, h14 rfl⟩

/-- C7: on an absent username nothing throws: `getByUsername` and `update`
answer the absent sentinel with the store untouched, `remove` answers
`false` with the store untouched, and removing a key twice answers `false`
the second time. -/
theorem notFound_sentinel (s : Store) (username : String)
    (habs : Store.get s username = none) :
    UserRepository.getByUsername s username = none
  ∧ (∀ (data : UpdatePayload) (now : Nat),
      UserRepository.update s username data now = (none, s))
  ∧ UserRepository.remove s username = (false, s)
  ∧ (∀ s2 : Store, s2.wf →
      (UserRepository.remove (UserRepository.remove s2 username).2 username).1 = false) := by
  refine ⟨habs, fun data now => update_eq_of_get_none s username data now habs, ?_, ?_⟩
  · unfold UserRepository.remove Store.delete
    unfold Store.get at habs
    rw [deleteKey_of_lookup_none username s.entries habs]
  · intro s2 hwf
    unfold UserRepository.remove Store.delete
    rw [deleteKey_fst, lookupKey_deleteKey_self username s2.entries hwf]
    rfl

/-- C7 witness: `zoe` is absent from the demo store; lookup, update and a
double remove all answer their sentinels. -/
theorem notFound_sentinel_witness :
    UserRepository.getByUsername demoStore "zoe" = none
  ∧ UserRepository.update demoStore "zoe" {} 9 = (none, demoStore)
  ∧ UserRepository.remove demoStore "zoe" = (false, demoStore)
  ∧ (UserRepository.remove (UserRepository.remove demoStore "zoe").2 "zoe").1 = false := by
  obtain ⟨h1, h2, h3, h4⟩ := notFound_sentinel demoStore "zoe" (by decide)
  exact ⟨h1, h2 {} 9, h3, h4 demoStore (by decide)⟩

/-- C1: `getAll` fails with a range error exactly when `pageCurrent < 1` or
`pageSize < 1` (`PageCurrentError` respectively `PageSizeError`); on valid
inputs it answers `pageCount = ceil(N / pageSize)` (0 on an empty store)
and the stored records sliced at offset `(pageCurrent - 1) * pageSize` for
at most `pageSize` items, so a page beyond `pageCount` is an empty list
with that same `pageCount`. -/
theorem getAll_pagination_contract (s : Store) (pc ps : Int) :
    ((∃ e, UserRepository.getAll s pc ps = .error e) ↔ pc < 1 ∨ ps < 1)
  ∧ (pc < 1 → UserRepository.getAll s pc ps = .error (.pageCurrent pc))
  ∧ (1 ≤ pc → ps < 1 → UserRepository.getAll s pc ps = .error (.pageSize ps))
  ∧ (1 ≤ pc → 1 ≤ ps →
      ∃ r, UserRepository.getAll s pc ps = .ok r
        ∧ r.pageCount = s.values.length ⌈/⌉ ps.toNat
        ∧ (s.values.length = 0 → r.pageCount = 0)
        ∧ r.pageCurrent = pc ∧ r.pageSize = ps
        ∧ r.list = (s.values.drop (((pc - 1) * ps).toNat)).take ps.toNat
        ∧ ((r.pageCount : Int) < pc → r.list = [])) := by
  refine ⟨⟨?_, ?_⟩, ?_, ?_, ?_⟩
  · rintro ⟨e, he⟩
    by_contra hcon
    push_neg at hcon
    rw [getAll_ok s pc ps (by omega) (by omega)] at he
    cases he
  · intro hcon
    by_cases h1 : pc < 1
    · exact ⟨.pageCurrent pc, by unfold UserRepository.getAll; rw [if_pos h1]⟩
    · have h2 : ps < 1 := by
        rcases hcon with h | h
        · exact absurd h h1
        · exact h
      exact ⟨.pageSize ps, by unfold UserRepository.getAll; rw [if_neg h1, if_pos h2]⟩
  · intro h1
    unfold UserRepository.getAll
    rw [if_pos h1]
  · intro h1 h2
    unfold UserRepository.getAll
    rw [if_neg (by omega), if_pos h2]
  · intro h1 h2
    refine ⟨_, getAll_ok s pc ps h1 h2, (Nat.ceilDiv_eq_add_pred_div _ _).symm, ?_,
      rfl, rfl, rfl, ?_⟩
    · intro h0
      rw [h0]
      exact Nat.div_eq_of_lt (by omega)
    · intro hlt
      simp only [] at hlt
      have hS1 : 0 < ps.toNat := by omega
      have hnk : s.values.length ≤ ps.toNat * (s.values.length ⌈/⌉ ps.toNat) :=
        le_smul_ceilDiv hS1
      have hoff : s.values.length ≤ ((pc - 1) * ps).toNat := by
        have hges : ((s.values.length ⌈/⌉ ps.toNat : Nat) : Int) ≤ pc - 1 := by
          rw [Nat.ceilDiv_eq_add_pred_div, Int.natCast_div]
          exact Int.le_sub_one_iff.mpr hlt
        have hcast : (ps.toNat : Int) = ps := Int.toNat_of_nonneg (by omega)
        have hint : ((s.values.length : Int)) ≤ (pc - 1) * ps := by
          calc (s.values.length : Int)
              ≤ ((ps.toNat * (s.values.length ⌈/⌉ ps.toNat) : Nat) : Int) := by
                exact_mod_cast hnk
            _ = (ps.toNat : Int) * ((s.values.length ⌈/⌉ ps.toNat : Nat) : Int) := by
                push_cast; ring
            _ ≤ (ps.toNat : Int) * (pc - 1) := by
                exact mul_le_mul_of_nonneg_left hges (by omega)
            _ = (pc - 1) * ps := by rw [hcast]; ring
        omega
      show (s.values.drop (((pc - 1) * ps).toNat)).take ps.toNat = []
      rw [List.drop_eq_nil_of_le hoff]
      exact List.take_nil

/-- C1 witness: on the five-user demo store, page 2 of size 3 succeeds with
`pageCount = 2` and two records. -/
theorem getAll_pagination_contract_witness :
    ∃ r, UserRepository.getAll demoStore5 2 3 = .ok r
      ∧ r.pageCount = 2 ∧ r.list.length = 2 := by
  obtain ⟨r, h1, h2, _, _, _, h6, _⟩ :=
    (getAll_pagination_contract demoStore5 2 3).2.2.2 (by decide) (by decide)
  refine ⟨r, h1, ?_, ?_⟩
  · rw [h2]; rfl
  · rw [h6]; rfl

/-- C2: on a stored user whose status is `'inactive'`, `updateUserDetails`
and `increaseLoginsCounter` fail with `UserInactiveError` and return the
store untouched (so the record, its `loginsCounter` included, is
unchanged); `updateUserStatus` succeeds on any existing user in either
direction (reactivation included), and `getByUsername` and `remove` are
not gated by status. -/
theorem inactive_user_gating (s : Store) (username : String) (user : User)
    (hget : Store.get s username = some user) (hin : user.status = .inactive) :
    (∀ (data : UpdateDetailsPayload) (now : Nat),
        UserService.updateUserDetails s username data now =
          (.error (.userInactive username), s))
  ∧ (∀ now : Nat,
        UserService.increaseLoginsCounter s username now =
          (.error (.userInactive username), s))
  ∧ (∀ (k2 : String) (user2 : User), Store.get s k2 = some user2 →
        ∀ (st : Status) (now : Nat),
          ∃ u3, UserService.updateUserStatus s k2 st now = (some u3, Store.set s k2 u3)
            ∧ u3.status = st
            ∧ u3.username = user2.username
            ∧ u3.loginsCounter = user2.loginsCounter)
  ∧ UserService.getByUsername s username = some user
  ∧ (UserService.remove s username).1 = true := by
  refine ⟨?_, ?_, ?_, ?_, ?_⟩
  · intro data now
    unfold UserService.updateUserDetails UserRepository.getByUsername
    rw [hget]
    simp [hin]
  · intro now
    unfold UserService.increaseLoginsCounter UserRepository.getByUsername
    rw [hget]
    simp [hin]
  · intro k2 user2 hget2 st now
    refine ⟨applyUpdate user2 { status := some st } now, ?_, ?_, rfl, ?_⟩
    · unfold UserService.updateUserStatus
      exact update_eq_of_get_some s k2 _ now user2 hget2
    · simp [applyUpdate]
    · simp [applyUpdate]
  · show UserService.getByUsername s username = some user
    unfold UserService.getByUsername UserRepository.getByUsername
    exact hget
  · unfold UserService.remove UserRepository.remove Store.delete
    rw [deleteKey_fst]
    unfold Store.get at hget
    rw [hget]
    rfl

/-- C2 witness: `bob` is stored inactive in the demo store; both gated
operations fail with the inactive-user error and leave the store as it
was, while `remove` still reports success. -/
theorem inactive_user_gating_witness :
    UserService.updateUserDetails demoStore "bob" {} 9 =
      (.error (.userInactive "bob"), demoStore)
  ∧ UserService.increaseLoginsCounter demoStore "bob" 9 =
      (.error (.userInactive "bob"), demoStore)
  ∧ (UserService.remove demoStore "bob").1 = true := by
  obtain ⟨h1, h2, _, _, h5⟩ :=
    inactive_user_gating demoStore "bob" bobInactive (by decide) (by decide)
  exact ⟨h1 {} 9, h2 9, h5⟩

/-- C3: on a stored active user, `increaseLoginsCounter` stores exactly
the old counter plus one, refreshes `lastUpdateTime`, and changes no other
field; and from a freshly created user, two successive increments yield a
stored counter of exactly 2. -/
theorem increaseLoginsCounter_exact (s : Store) (username : String) (user : User)
    (now : Nat) (hget : Store.get s username = some user)
    (hact : user.status = .active) :
    (∃ u2, UserService.increaseLoginsCounter s username now =
        (.ok (some u2), Store.set s username u2)
      ∧ u2.loginsCounter = user.loginsCounter + 1
      ∧ u2.lastUpdateTime = now
      ∧ u2.username = user.username
      ∧ u2.firstName = user.firstName
      ∧ u2.lastName = user.lastName
      ∧ u2.status = user.status
      ∧ u2.creationTime = user.creationTime)
  ∧ (∀ (p : CreatePayload) (t0 t1 t2 : Nat),
      ∃ w, Store.get (createThenTwoIncrements p t0 t1 t2) p.username = some w
        ∧ w.loginsCounter = 2) := by
  constructor
  · exact ⟨_, service_incr_eq s username user now hget hact,
      rfl, rfl, rfl, rfl, rfl, rfl, rfl⟩
  · intro p t0 t1 t2
    have hc : UserService.create ⟨[]⟩ p t0 =
        (.ok (⟨p.username, p.firstName, p.lastName, .active, 0, t0, t0⟩ : User),
         Store.set ⟨[]⟩ p.username ⟨p.username, p.firstName, p.lastName, .active, 0, t0, t0⟩) := by
      rfl
    have hg1 : Store.get (Store.set ⟨[]⟩ p.username
        ⟨p.username, p.firstName, p.lastName, .active, 0, t0, t0⟩) p.username =
        some ⟨p.username, p.firstName, p.lastName, .active, 0, t0, t0⟩ :=
      Store.get_set_self _ _ _
    have hi1 : UserService.increaseLoginsCounter
        (Store.set ⟨[]⟩ p.username ⟨p.username, p.firstName, p.lastName, .active, 0, t0, t0⟩)
        p.username t1 =
        (.ok (some ⟨p.username, p.firstName, p.lastName, .active, 1, t0, t1⟩),
         Store.set
          (Store.set ⟨[]⟩ p.username ⟨p.username, p.firstName, p.lastName, .active, 0, t0, t0⟩)
          p.username ⟨p.username, p.firstName, p.lastName, .active, 1, t0, t1⟩) := by
      exact service_incr_eq _ p.username _ t1 hg1 rfl
    have hg2 : Store.get (Store.set
        (Store.set ⟨[]⟩ p.username ⟨p.username, p.firstName, p.lastName, .active, 0, t0, t0⟩)
        p.username ⟨p.username, p.firstName, p.lastName, .active, 1, t0, t1⟩) p.username =
        some ⟨p.username, p.firstName, p.lastName, .active, 1, t0, t1⟩ :=
      Store.get_set_self _ _ _
    have hi2 : UserService.increaseLoginsCounter
        (Store.set
          (Store.set ⟨[]⟩ p.username ⟨p.username, p.firstName, p.lastName, .active, 0, t0, t0⟩)
          p.username ⟨p.username, p.firstName, p.lastName, .active, 1, t0, t1⟩)
        p.username t2 =
        (.ok (some ⟨p.username, p.firstName, p.lastName, .active, 2, t0, t2⟩),
         Store.set (Store.set
          (Store.set ⟨[]⟩ p.username ⟨p.username, p.firstName, p.lastName, .active, 0, t0, t0⟩)
          p.username ⟨p.username, p.firstName, p.lastName, .active, 1, t0, t1⟩)
          p.username ⟨p.username, p.firstName, p.lastName, .active, 2, t0, t2⟩) := by
      exact service_incr_eq _ p.username _ t2 hg2 rfl
    refine ⟨⟨p.username, p.firstName, p.lastName, .active, 2, t0, t2⟩, ?_, rfl⟩
    show Store.get (createThenTwoIncrements p t0 t1 t2) p.username = _
    unfold createThenTwoIncrements
    rw [hc]
    show Store.get (UserService.increaseLoginsCounter
      ((UserService.increaseLoginsCounter
        (Store.set ⟨[]⟩ p.username ⟨p.username, p.firstName, p.lastName, .active, 0, t0, t0⟩)
        p.username t1).2) p.username t2).2 p.username = _
    rw [hi1]
    show Store.get (UserService.increaseLoginsCounter
      (Store.set
        (Store.set ⟨[]⟩ p.username ⟨p.username, p.firstName, p.lastName, .active, 0, t0, t0⟩)
        p.username ⟨p.username, p.firstName, p.lastName, .active, 1, t0, t1⟩)
      p.username t2).2 p.username = _
    rw [hi2]
    exact Store.get_set_self _ _ _

/-- C3 witness: the `alice` scenario — create, increment twice, stored
counter is 2 — obtained from the theorem at the demo store's active user. -/
theorem increaseLoginsCounter_exact_witness :
    ∃ w, Store.get (createThenTwoIncrements alicePayload 0 1 2) "alice" = some w
      ∧ w.loginsCounter = 2 := by
  have h := (increaseLoginsCounter_exact demoStore "ann"
    ⟨"ann", "Ann", "Lee", .active, 1, 3, 4⟩ 9 (by decide) rfl).2 alicePayload 0 1 2
  exact h

/-- C8 counterexample: from the empty store, `create "a"` followed by the
repository `update` with payload `{loginsCounter: -1}` — both operations
the claim quantifies over — leaves a stored record whose `loginsCounter`
is negative, so the store-wide invariant is violated. -/
theorem storeInvariant_counterexample :
    Store.get negativeCounterStore "a" =
      some ⟨"a", "Ada", "Lovelace", Status.active, -1, 0, 1⟩
  ∧ ¬ StoreInv negativeCounterStore := by
  refine ⟨by decide, ?_⟩
  intro hinv
  have hm : ("a", (⟨"a", "Ada", "Lovelace", Status.active, -1, 0, 1⟩ : User)) ∈
      negativeCounterStore.entries := by decide
  have hneg := (hinv.2 _ hm).2.2
  norm_num [UserInv] at hneg

/-- C8 (amended): for a store satisfying the invariant (unique keys, each
record's username equal to its key, `creationTime ≤ lastUpdateTime`,
non-negative counter), every operation — create, update, updateUserDetails,
updateUserStatus, increaseLoginsCounter, remove — preserves it, provided
the clock is not behind any stored creation time and any `loginsCounter` an
update payload carries is non-negative (the counterexample shows the claim
fails for the unrestricted repository update); creation yields a record
with `creationTime = lastUpdateTime = now` under its key, and updates never
change a record's username or creationTime. -/
theorem storeInvariant_preserved (s : Store) (hs : StoreInv s) (now : Nat)
    (hnow : ∀ p ∈ s.entries, p.2.creationTime ≤ now) :
    StoreInv (⟨[]⟩ : Store)
  ∧ (∀ data : CreatePayload,
      StoreInv (UserRepository.create s data now).2
      ∧ (Store.get s data.username = none →
          Store.get (UserRepository.create s data now).2 data.username =
            some ⟨data.username, data.firstName, data.lastName, .active, 0, now, now⟩))
  ∧ (∀ (k : String) (data : UpdatePayload),
      (∀ c ∈ data.loginsCounter, 0 ≤ c) →
      StoreInv (UserRepository.update s k data now).2
      ∧ (∀ u u2, Store.get s k = some u →
          (UserRepository.update s k data now).1 = some u2 →
          u2.username = u.username ∧ u2.creationTime = u.creationTime))
  ∧ (∀ (k : String) (d : UpdateDetailsPayload),
      StoreInv (UserService.updateUserDetails s k d now).2)
  ∧ (∀ (k : String) (st : Status),
      StoreInv (UserService.updateUserStatus s k st now).2)
  ∧ (∀ k : String, StoreInv (UserService.increaseLoginsCounter s k now).2)
  ∧ (∀ k : String, StoreInv (UserRepository.remove s k).2) := by
  refine ⟨⟨List.nodup_nil, by simp⟩, ?_, ?_, ?_, ?_, ?_, ?_⟩
  · intro data
    cases hg : Store.get s data.username with
    | some u =>
      constructor
      · have hdup : UserRepository.create s data now =
            (.error (.usernameExists data.username), s) := by
          unfold UserRepository.create
          rw [hg]
        rw [hdup]
        exact hs
      · intro hnone
        exact absurd hnone (by simp)
    | none =>
      have hcr : UserRepository.create s data now =
          (.ok (⟨data.username, data.firstName, data.lastName, .active, 0, now, now⟩ : User),
           Store.set s data.username
             ⟨data.username, data.firstName, data.lastName, .active, 0, now, now⟩) := by
        unfold UserRepository.create
        rw [hg]
      constructor
      · rw [hcr]
        exact StoreInv_set s data.username _ hs ⟨rfl, le_refl now, by norm_num⟩
      · intro _
        rw [hcr]
        exact Store.get_set_self s data.username _
  · intro k data hc
    refine ⟨StoreInv_update s hs now hnow k data hc, ?_⟩
    intro u u2 hu hu2
    rw [update_eq_of_get_some s k data now u hu] at hu2
    cases hu2
    exact ⟨rfl, rfl⟩
  · intro k d
    cases hg : Store.get s k with
    | none =>
      have heq : UserService.updateUserDetails s k d now = (.ok none, s) := by
        unfold UserService.updateUserDetails UserRepository.getByUsername
        rw [hg]
      rw [heq]
      exact hs
    | some target =>
      by_cases hst : target.status = .inactive
      · have heq : UserService.updateUserDetails s k d now =
            (.error (.userInactive k), s) := by
          unfold UserService.updateUserDetails UserRepository.getByUsername
          rw [hg]
          simp [hst]
        rw [heq]
        exact hs
      · have heq : UserService.updateUserDetails s k d now =
            (.ok (UserRepository.update s k
                { firstName := d.firstName, lastName := d.lastName } now).1,
             (UserRepository.update s k
                { firstName := d.firstName, lastName := d.lastName } now).2) := by
          unfold UserService.updateUserDetails UserRepository.getByUsername
          rw [hg]
          simp [hst]
        rw [heq]
        exact StoreInv_update s hs now hnow k _ (by simp)
  · intro k st
    exact StoreInv_update s hs now hnow k _ (by simp)
  · intro k
    cases hg : Store.get s k with
    | none =>
      have heq : UserService.increaseLoginsCounter s k now = (.ok none, s) := by
        unfold UserService.increaseLoginsCounter UserRepository.getByUsername
        rw [hg]
      rw [heq]
      exact hs
    | some target =>
      by_cases hst : target.status = .inactive
      · have heq : UserService.increaseLoginsCounter s k now =
            (.error (.userInactive k), s) := by
          unfold UserService.increaseLoginsCounter UserRepository.getByUsername
          rw [hg]
          simp [hst]
        rw [heq]
        exact hs
      · have hact : target.status = .active := by
          cases htc : target.status
          · rfl
          · exact absurd htc hst
        have heq := service_incr_eq s k target now hg hact
        have hmem := lookupKey_mem k s.entries target hg
        have htarget := hs.2 (k, target) hmem
        rw [heq]
        refine StoreInv_set s k _ hs ⟨htarget.1, ?_, ?_⟩
        · show target.creationTime ≤ now
          exact hnow (k, target) hmem
        · show 0 ≤ target.loginsCounter + 1
          have h0 : 0 ≤ target.loginsCounter := htarget.2.2
          omega
  · intro k
    exact StoreInv_delete s k hs

/-- C8 witness: the demo store satisfies the invariant at clock 10, and
removing `bob` preserves it. -/
theorem storeInvariant_preserved_witness :
    StoreInv (UserRepository.remove demoStore "bob").2 := by
  have h := storeInvariant_preserved demoStore (by decide) 10 (by decide)
  exact h.2.2.2.2.2.2 "bob"

/-- C10: for every store and every page size at least 1, the page lists
answered by `getAll` for pages 1 through `pageCount = ceil(N / pageSize)`,
concatenated in order, are exactly the stored records in iteration order —
nothing dropped, nothing duplicated at a page boundary. -/
theorem getAll_pages_partition (s : Store) (ps : Int) (h : 1 ≤ ps) :
    ((List.range (s.values.length ⌈/⌉ ps.toNat)).map
      (fun i : Nat => pageList s ((i : Int) + 1) ps)).flatten = s.values := by
  have hS : 0 < ps.toNat := by omega
  have hpage : ∀ i : Nat,
      pageList s ((i : Int) + 1) ps = (s.values.drop (i * ps.toNat)).take ps.toNat := by
    intro i
    unfold pageList
    rw [getAll_ok s ((i : Int) + 1) ps (by omega) h]
    show (s.values.drop ((((i : Int) + 1 - 1) * ps).toNat)).take ps.toNat = _
    have hoff : (((i : Int) + 1 - 1) * ps).toNat = i * ps.toNat := by
      have hcast : ((i : Int) + 1 - 1) * ps = ((i * ps.toNat : Nat) : Int) := by
        push_cast [Int.toNat_of_nonneg (show (0 : Int) ≤ ps by omega)]
        ring
      rw [hcast, Int.toNat_natCast]
    rw [hoff]
  rw [List.map_congr_left (fun i _ => hpage i)]
  exact flatten_chunks ps.toNat hS s.values.length s.values rfl

/-- C10 witness: on the five-user demo store with page size 2, the three
pages concatenate back to the full record list. -/
theorem getAll_pages_partition_witness :
    ((List.range (demoStore5.values.length ⌈/⌉ (2 : Int).toNat)).map
      (fun i : Nat => pageList demoStore5 ((i : Int) + 1) 2)).flatten = demoStore5.values :=
  getAll_pages_partition demoStore5 2 (by decide)

end UserApp
